import Mathlib

/-!
Verification of the NOTY backend note-lifecycle and authentication core.

The definitions below are shallow embeddings of the route handlers in
`src/routes/auth.js` (registration/login and the notes router), the
controller `transitionStatus` and friends, and the JWT utilities in
`src/utils/auth.js`.  The relational store (Prisma) is modelled as a list
of records; `findFirst`, `updateMany`, `findMany`/`count` and `delete`
calls are translated to the corresponding list operations.  Timestamps
and identifiers are natural numbers.
-/

deriving instance DecidableEq for Except

namespace Noty

/-- JavaScript `String.prototype.trim`: remove leading and trailing
whitespace.  Embedded as a list operation on the string's characters. -/
def trimS (s : String) : String :=
  ⟨((s.data.dropWhile Char.isWhitespace).reverse.dropWhile Char.isWhitespace).reverse⟩

/-- JavaScript `String.prototype.toLowerCase` (ASCII fragment): lower-case
every character. -/
def lowerS (s : String) : String :=
  ⟨s.data.map Char.toLower⟩

/-- Note status enum from `schema.prisma` (`ACTIVE | ARCHIVED | TRASH`). -/
inductive Status
  | ACTIVE
  | ARCHIVED
  | TRASH
deriving DecidableEq, Repr

/-- A persisted note row: id, owning user id, title, content, status and
the `updatedAt` timestamp maintained by the store. -/
structure Note where
  id : Nat
  userId : Nat
  title : String
  content : String
  status : Status
  updatedAt : Nat
deriving DecidableEq, Repr

/-- The note table, a list of rows. -/
abbrev DB := List Note

/-- Error taxonomy of the HTTP layer (spec section 7): 400, 401, 404, 409, 500. -/
inductive ApiError
  | InvalidInput
  | Unauthenticated
  | NotFound
  | Conflict
  | Internal
deriving DecidableEq, Repr

/-- `prisma.note.findFirst({ where: { id, userId } })`: the first note with
the given id that belongs to the given user. -/
def findOwned (db : DB) (uid i : Nat) : Option Note :=
  db.find? fun n => n.id == i && n.userId == uid

/-- The id column is unique (`@id` in the Prisma schema). -/
def uniqueIds : DB → Bool
  | [] => true
  | n :: t => t.all (fun m => m.id != n.id) && uniqueIds t

/-- GET /api/notes/:id — fetch one owned note, 404 when `findFirst` is empty. -/
def getNote (db : DB) (uid i : Nat) : Except ApiError Note :=
  match findOwned db uid i with
  | none => .error .NotFound
  | some n => .ok n

/-- POST /api/notes — create.  Rejects absent (falsy, i.e. empty-string)
fields, then rejects fields that are empty after trimming, then stores the
trimmed title and content with status ACTIVE. -/
def createNote (db : DB) (uid : Nat) (title content : String) (newId now : Nat) :
    Except ApiError (Note × DB) :=
  if title = "" || content = "" then .error .InvalidInput
  else if (trimS title).length = 0 || (trimS content).length = 0 then .error .InvalidInput
  else
    let n : Note := ⟨newId, uid, trimS title, trimS content, .ACTIVE, now⟩
    .ok (n, db ++ [n])

/-- PUT /api/notes/:id — update.  Checks only that title and content are
truthy (non-empty strings), verifies ownership with `findFirst`, then
`prisma.note.update({ where: { id }, data: { title: trim, content: trim } })`. -/
def updateNote (db : DB) (uid i : Nat) (title content : String) (now : Nat) :
    Except ApiError (Note × DB) :=
  if title = "" || content = "" then .error .InvalidInput
  else
    match findOwned db uid i with
    | none => .error .NotFound
    | some n0 =>
      let n' : Note := { n0 with title := trimS title, content := trimS content, updatedAt := now }
      let db' := db.map fun m =>
        if m.id = i then { m with title := trimS title, content := trimS content, updatedAt := now } else m
      .ok (n', db')

/-- Legacy PUT /api/notes/:id from `src/routes/notes.js`: no emptiness
validation and no trimming, but the same ownership check and the same
`data: { title, content }` update. -/
def updateNoteLegacy (db : DB) (uid i : Nat) (title content : String) (now : Nat) :
    Except ApiError (Note × DB) :=
  match findOwned db uid i with
  | none => .error .NotFound
  | some n0 =>
    let n' : Note := { n0 with title := title, content := content, updatedAt := now }
    let db' := db.map fun m =>
      if m.id = i then { m with title := title, content := content, updatedAt := now } else m
    .ok (n', db')

/-- Row predicate of the conditional update
`updateMany({ where: { id, userId, status: { in: fromStatuses } } })`. -/
def transMatch (uid i : Nat) (fromStatuses : List Status) (n : Note) : Bool :=
  n.id == i && n.userId == uid && fromStatuses.contains n.status

/-- `transitionStatus` from the notes controller: one conditional
`updateMany` setting `status := toStatus` on every row matching
id + owner + allowed source status; 404 when the affected count is zero. -/
def transitionStatus (db : DB) (uid i : Nat) (fromStatuses : List Status)
    (toStatus : Status) (now : Nat) : Except ApiError DB :=
  let cnt := (db.filter (transMatch uid i fromStatuses)).length
  if cnt = 0 then .error .NotFound
  else .ok (db.map fun n =>
    if transMatch uid i fromStatuses n then { n with status := toStatus, updatedAt := now } else n)

/-- PUT /api/notes/:id/archive — ACTIVE to ARCHIVED. -/
def archiveNote (db : DB) (uid i now : Nat) : Except ApiError DB :=
  transitionStatus db uid i [.ACTIVE] .ARCHIVED now

/-- PUT /api/notes/:id/unarchive — ARCHIVED to ACTIVE. -/
def unarchiveNote (db : DB) (uid i now : Nat) : Except ApiError DB :=
  transitionStatus db uid i [.ARCHIVED] .ACTIVE now

/-- PUT /api/notes/:id/trash — ACTIVE or ARCHIVED to TRASH. -/
def trashNote (db : DB) (uid i now : Nat) : Except ApiError DB :=
  transitionStatus db uid i [.ACTIVE, .ARCHIVED] .TRASH now

/-- PUT /api/notes/:id/restore — TRASH to ACTIVE. -/
def restoreNote (db : DB) (uid i now : Nat) : Except ApiError DB :=
  transitionStatus db uid i [.TRASH] .ACTIVE now

/-- DELETE /api/notes/:id — ownership check by `findFirst`, then
`prisma.note.delete({ where: { id } })`. -/
def deleteNote (db : DB) (uid i : Nat) : Except ApiError DB :=
  match findOwned db uid i with
  | none => .error .NotFound
  | some _ => .ok (db.filter fun n => n.id != i)

/-- Does `needle` occur at the head of `hay`? -/
def leadMatch : List Char → List Char → Bool
  | [], _ => true
  | _ :: _, [] => false
  | a :: as, b :: bs => a == b && leadMatch as bs

/-- Substring occurrence: `needle` occurs contiguously somewhere in `hay`. -/
def hasSub (needle hay : List Char) : Bool :=
  match hay with
  | [] => needle.isEmpty
  | _ :: t => leadMatch needle hay || hasSub needle t

/-- The `OR` search clause: `title contains search` or `content contains
search`, with `mode: insensitive` embedded as comparison of lower-cased
strings. -/
def noteMatchesSearch (s : String) (n : Note) : Bool :=
  hasSub (lowerS s).data (lowerS n.title).data || hasSub (lowerS s).data (lowerS n.content).data

/-- The `where` clause of GET /api/notes: owner, ACTIVE status, and — when a
search term is given (`if (search)`, so the empty string counts as absent) —
the case-insensitive substring clause. -/
def activeWhere (uid : Nat) (search : Option String) (n : Note) : Bool :=
  n.userId == uid && n.status == Status.ACTIVE &&
    (match search with
     | some s => if s = "" then true else noteMatchesSearch s n
     | none => true)

/-- Insertion into a list that is sorted by descending `updatedAt`. -/
def insertDesc (n : Note) : List Note → List Note
  | [] => [n]
  | m :: t => if m.updatedAt ≤ n.updatedAt then n :: m :: t else m :: insertDesc n t

/-- `orderBy: { updatedAt: 'desc' }` — the store returns the matching rows
most recently updated first (an insertion sort models the SQL ordering). -/
def sortByUpdatedDesc : List Note → List Note
  | [] => []
  | n :: t => insertDesc n (sortByUpdatedDesc t)

/-- Prisma `findMany` slicing: a negative `skip` is rejected by the client
(the handler's catch turns that into a 500), a non-negative `take` keeps
the first `take` records after the offset, and a negative `take` keeps the
last `|take|` records. -/
def prismaSlice (l : List Note) (skip tk : Int) : Except ApiError (List Note) :=
  if skip < 0 then .error .Internal
  else
    let after := l.drop skip.toNat
    if tk < 0 then .ok (after.drop (after.length - tk.natAbs))
    else .ok (after.take tk.toNat)

/-- GET /api/notes — list the owner's ACTIVE notes with optional search,
`skip = (page - 1) * limit`, `take = limit`, newest-updated first, together
with `count` over the same `where` clause. -/
def listActiveNotes (db : DB) (uid : Nat) (page limit : Int) (search : Option String) :
    Except ApiError (List Note × Nat) :=
  let skip := (page - 1) * limit
  let sorted := sortByUpdatedDesc (db.filter (activeWhere uid search))
  match prismaSlice sorted skip limit with
  | .error e => .error e
  | .ok notes => .ok (notes, (db.filter (activeWhere uid search)).length)

/-- A persisted user row: id, name, unique email, stored password hash. -/
structure User where
  id : Nat
  name : String
  email : String
  password : String
deriving DecidableEq, Repr

/-- The user table. -/
abbrev UserDB := List User

/-- `prisma.user.findUnique({ where: { email } })` — exact match on the
stored email. -/
def findUserByEmail (udb : UserDB) (email : String) : Option User :=
  udb.find? fun u => u.email == email

/-- The registration email check `/^[^\s@]+@[^\s@]+\.[^\s@]+$/`: no
whitespace anywhere, exactly one at sign with a non-empty part before it,
and a dot at an interior position of the part after it. -/
def validEmail (s : String) : Bool :=
  let l := s.data
  let lpart := l.takeWhile fun c => c != '@'
  let rest := l.dropWhile fun c => c != '@'
  (l.all fun c => !c.isWhitespace) &&
  l.count '@' == 1 &&
  !lpart.isEmpty &&
  (match rest with
   | _ :: domain => ((domain.drop 1).dropLast).contains '.'
   | [] => false)

/-- Observable outcome of an authentication endpoint: an HTTP status code
with an error message, or a success carrying the returned user fields. -/
inductive AuthResult
  | failure (status : Nat) (error : String)
  | success (userId : Nat) (userName userEmail : String)
deriving DecidableEq, Repr

/-- POST /api/auth/register: required-fields check, email regex, minimum
password length 6, duplicate check on the lower-cased email, then create
with the lower-cased email and the hashed password.  `hash` stands for the
external bcrypt primitive. -/
def register (hash : String → String) (udb : UserDB) (newId : Nat)
    (name email password : String) : AuthResult × UserDB :=
  if name = "" || email = "" || password = "" then
    (.failure 400 "Name, email, and password are required", udb)
  else if !validEmail email then
    (.failure 400 "Please provide a valid email address", udb)
  else if password.length < 6 then
    (.failure 400 "Password must be at least 6 characters long", udb)
  else
    match findUserByEmail udb (lowerS email) with
    | some _ => (.failure 409 "User already exists with this email", udb)
    | none =>
      let u : User := ⟨newId, name, lowerS email, hash password⟩
      (.success u.id u.name u.email, udb ++ [u])

/-- POST /api/auth/login: required-fields check, `findUnique` on the
lower-cased email, then the bcrypt comparison (`compare` stands for the
external primitive).  Both failure branches return 401 with the same
literal message. -/
def login (compare : String → String → Bool) (udb : UserDB)
    (email password : String) : AuthResult :=
  if email = "" || password = "" then
    .failure 400 "Email and password are required"
  else
    match findUserByEmail udb (lowerS email) with
    | none => .failure 401 "Invalid email or password"
    | some u =>
      if compare password u.password then .success u.id u.name u.email
      else .failure 401 "Invalid email or password"

/-- The signed claims of a JWT: the embedded user id and email. -/
structure TokenPayload where
  id : Nat
  email : String
deriving DecidableEq, Repr

/-- A signed token, modelling the external `jsonwebtoken` primitives: the
payload, issued-at and expiry times, and the signing secret standing for
the signature (verification succeeds exactly when the secrets agree). -/
structure Token where
  payload : TokenPayload
  iat : Nat
  exp : Nat
  secret : String
deriving DecidableEq, Repr

/-- `expiresIn: '7d'` in seconds. -/
def sevenDays : Nat := 7 * 24 * 60 * 60

/-- `generateToken` from `src/utils/auth.js`: sign `{ id, email }` with the
configured secret and a 7-day lifetime. -/
def generateToken (secret : String) (u : User) (now : Nat) : Token :=
  ⟨⟨u.id, u.email⟩, now, now + sevenDays, secret⟩

/-- Failure modes of `jwt.verify`. -/
inductive TokenError
  | Expired
  | Malformed
deriving DecidableEq, Repr

/-- `verifyToken` from `src/utils/auth.js` via `jwt.verify`: signature
check first, then the expiry check (`jsonwebtoken` reports
`TokenExpiredError` when the clock reaches `exp`). -/
def verifyToken (secret : String) (t : Token) (now : Nat) : Except TokenError TokenPayload :=
  if t.secret != secret then .error .Malformed
  else if t.exp ≤ now then .error .Expired
  else .ok t.payload

/-! ## Helper lemmas -/

theorem uniqueIds_eq {db : DB} {n m : Note} (hu : uniqueIds db = true)
    (hn : n ∈ db) (hm : m ∈ db) (h : m.id = n.id) : m = n := by
  induction db with
  | nil => cases hn
  | cons a t ih =>
    have hu' : (t.all fun x => x.id != a.id) = true ∧ uniqueIds t = true := by
      simpa [uniqueIds, Bool.and_eq_true] using hu
    rcases List.mem_cons.mp hn with rfl | hn'
    · rcases List.mem_cons.mp hm with rfl | hm'
      · rfl
      · exact absurd h (by simpa using List.all_eq_true.mp hu'.1 m hm')
    · rcases List.mem_cons.mp hm with rfl | hm'
      · exact absurd h.symm (by simpa using List.all_eq_true.mp hu'.1 n hn')
      · exact ih hu'.2 hn' hm'

theorem findOwned_none_of_other_owner {db : DB} {A B i : Nat} {n : Note}
    (hu : uniqueIds db = true) (hn : n ∈ db) (hid : n.id = i)
    (hown : n.userId = A) (hAB : A ≠ B) :
    findOwned db B i = none := by
  apply List.find?_eq_none.mpr
  intro m hm hpm
  have hmi : m.id = i ∧ m.userId = B := by simpa using hpm
  have : m = n := uniqueIds_eq hu hn hm (hmi.1.trans hid.symm)
  exact hAB (by rw [← hown, ← hmi.2, this])

theorem transMatch_false_of_other_owner {db : DB} {A B i : Nat} {n : Note}
    (hu : uniqueIds db = true) (hn : n ∈ db) (hid : n.id = i)
    (hown : n.userId = A) (hAB : A ≠ B) (fs : List Status) :
    ∀ m ∈ db, ¬ transMatch B i fs m := by
  intro m hm hpm
  have hmi : (m.id = i ∧ m.userId = B) ∧ fs.contains m.status := by
    simpa [transMatch, Bool.and_eq_true] using hpm
  have : m = n := uniqueIds_eq hu hn hm (hmi.1.1.trans hid.symm)
  exact hAB (by rw [← hown, ← hmi.1.2, this])

theorem transitionStatus_notFound_of_no_match {db : DB} {uid i : Nat}
    {fs : List Status} {ts : Status} {now : Nat}
    (h : ∀ m ∈ db, ¬ transMatch uid i fs m) :
    transitionStatus db uid i fs ts now = .error .NotFound := by
  unfold transitionStatus
  simp [List.filter_eq_nil_iff.mpr h]

end Noty

namespace Noty

/-! ## Claims -/

/-- C1.  Ownership isolation: when the unique note with a given id belongs
to user A, every operation user B (≠ A) performs on that id — get, update
(with inputs that pass field validation), archive, unarchive, trash,
restore, delete — returns NotFound, exactly as for a non-existent id. -/
theorem ownership_isolation (db : DB) (A B i : Nat) (n : Note)
    (title content : String) (now : Nat)
    (hu : uniqueIds db = true) (hn : n ∈ db) (hid : n.id = i)
    (hown : n.userId = A) (hAB : A ≠ B)
    (htitle : title ≠ "") (hcontent : content ≠ "") :
    getNote db B i = .error .NotFound ∧
    updateNote db B i title content now = .error .NotFound ∧
    archiveNote db B i now = .error .NotFound ∧
    unarchiveNote db B i now = .error .NotFound ∧
    trashNote db B i now = .error .NotFound ∧
    restoreNote db B i now = .error .NotFound ∧
    deleteNote db B i = .error .NotFound := by
  have hfind : findOwned db B i = none :=
    findOwned_none_of_other_owner hu hn hid hown hAB
  have htm := fun fs => transMatch_false_of_other_owner hu hn hid hown hAB fs
  refine ⟨?_, ?_, ?_, ?_, ?_, ?_, ?_⟩
  · simp [getNote, hfind]
  · simp [updateNote, hfind, htitle, hcontent]
  · exact transitionStatus_notFound_of_no_match (htm _)
  · exact transitionStatus_notFound_of_no_match (htm _)
  · exact transitionStatus_notFound_of_no_match (htm _)
  · exact transitionStatus_notFound_of_no_match (htm _)
  · simp [deleteNote, hfind]

/-- Witness for C1 at a concrete store: one note with id 1 owned by user
10, accessed by user 20. -/
theorem ownership_isolation_witness :
    getNote [⟨1, 10, "t", "c", .ACTIVE, 0⟩] 20 1 = .error .NotFound ∧
    updateNote [⟨1, 10, "t", "c", .ACTIVE, 0⟩] 20 1 "x" "y" 5 = .error .NotFound ∧
    archiveNote [⟨1, 10, "t", "c", .ACTIVE, 0⟩] 20 1 5 = .error .NotFound ∧
    unarchiveNote [⟨1, 10, "t", "c", .ACTIVE, 0⟩] 20 1 5 = .error .NotFound ∧
    trashNote [⟨1, 10, "t", "c", .ACTIVE, 0⟩] 20 1 5 = .error .NotFound ∧
    restoreNote [⟨1, 10, "t", "c", .ACTIVE, 0⟩] 20 1 5 = .error .NotFound ∧
    deleteNote [⟨1, 10, "t", "c", .ACTIVE, 0⟩] 20 1 = .error .NotFound :=
  ownership_isolation [⟨1, 10, "t", "c", .ACTIVE, 0⟩] 10 20 1
    ⟨1, 10, "t", "c", .ACTIVE, 0⟩ "x" "y" 5 (by decide) (by decide) rfl rfl
    (by decide) (by decide) (by decide)

/-- The effect a successful conditional status update has on the table
when ids are unique: the row with the given id gets the new status and a
fresh update timestamp, every other row is untouched.  Used to state the
results of the transition endpoints. -/
def setStatus (db : DB) (i : Nat) (st : Status) (now : Nat) : DB :=
  db.map fun m => if m.id = i then { m with status := st, updatedAt := now } else m

theorem transitionStatus_owned {db : DB} {uid i now : Nat} {n : Note}
    (hu : uniqueIds db = true) (hn : n ∈ db) (hid : n.id = i) (hown : n.userId = uid)
    (fs : List Status) (ts : Status) :
    transitionStatus db uid i fs ts now =
      if fs.contains n.status then .ok (setStatus db i ts now) else .error .NotFound := by
  by_cases hc : fs.contains n.status
  · have hmatch : transMatch uid i fs n = true := by
      simpa [transMatch, hid, hown] using hc
    have hmem : n ∈ db.filter (transMatch uid i fs) := List.mem_filter.mpr ⟨hn, hmatch⟩
    have hne : ¬ (db.filter (transMatch uid i fs)).length = 0 := by
      intro h0
      rw [List.length_eq_zero] at h0
      exact absurd (h0 ▸ hmem) (List.not_mem_nil n)
    rw [if_pos hc]
    simp only [transitionStatus]
    rw [if_neg hne]
    congr 1
    simp only [setStatus]
    apply List.map_congr_left
    intro m hm
    by_cases hmi : m.id = i
    · have hmn : m = n := uniqueIds_eq hu hn hm (hmi.trans hid.symm)
      have hm2 : transMatch uid i fs m = true := by
        rw [hmn]; exact hmatch
      simp [hm2, hmi]
    · have hm2 : transMatch uid i fs m = false := by
        simp [transMatch, hmi]
      simp [hm2, hmi]
  · rw [if_neg hc]
    apply transitionStatus_notFound_of_no_match
    intro m hm hpm
    have hmi : (m.id = i ∧ m.userId = uid) ∧ fs.contains m.status := by
      simpa [transMatch, Bool.and_eq_true] using hpm
    have hmn : m = n := uniqueIds_eq hu hn hm (hmi.1.1.trans hid.symm)
    exact hc (hmn ▸ hmi.2)

end Noty

namespace Noty

/-- C2.  Compare-and-swap transitions: on the unique note with the given id
owned by the caller, archive succeeds exactly when the stored status is
ACTIVE (storing ARCHIVED), unarchive exactly when ARCHIVED (storing
ACTIVE), trash exactly when ACTIVE or ARCHIVED (storing TRASH), restore
exactly when TRASH (storing ACTIVE); with the wrong current status, and
likewise when no note with that id belongs to the caller, the operation
returns NotFound and the table is untouched. -/
theorem transitions_cas (db : DB) (uid i now : Nat) (hu : uniqueIds db = true) :
    (∀ n ∈ db, n.id = i → n.userId = uid →
      (archiveNote db uid i now =
        if n.status = .ACTIVE then .ok (setStatus db i .ARCHIVED now) else .error .NotFound) ∧
      (unarchiveNote db uid i now =
        if n.status = .ARCHIVED then .ok (setStatus db i .ACTIVE now) else .error .NotFound) ∧
      (trashNote db uid i now =
        if n.status = .ACTIVE ∨ n.status = .ARCHIVED then .ok (setStatus db i .TRASH now)
        else .error .NotFound) ∧
      (restoreNote db uid i now =
        if n.status = .TRASH then .ok (setStatus db i .ACTIVE now) else .error .NotFound)) ∧
    ((∀ m ∈ db, ¬ (m.id = i ∧ m.userId = uid)) →
      archiveNote db uid i now = .error .NotFound ∧
      unarchiveNote db uid i now = .error .NotFound ∧
      trashNote db uid i now = .error .NotFound ∧
      restoreNote db uid i now = .error .NotFound) := by
  constructor
  · intro n hn hid hown
    refine ⟨?_, ?_, ?_, ?_⟩
    · rw [archiveNote, transitionStatus_owned hu hn hid hown]
      cases n.status <;> simp
    · rw [unarchiveNote, transitionStatus_owned hu hn hid hown]
      cases n.status <;> simp
    · rw [trashNote, transitionStatus_owned hu hn hid hown]
      cases n.status <;> simp
    · rw [restoreNote, transitionStatus_owned hu hn hid hown]
      cases n.status <;> simp
  · intro hno
    have htm : ∀ fs : List Status, ∀ m ∈ db, ¬ transMatch uid i fs m := by
      intro fs m hm hpm
      have hmi : (m.id = i ∧ m.userId = uid) ∧ fs.contains m.status := by
        simpa [transMatch, Bool.and_eq_true] using hpm
      exact hno m hm hmi.1
    exact ⟨transitionStatus_notFound_of_no_match (htm _),
      transitionStatus_notFound_of_no_match (htm _),
      transitionStatus_notFound_of_no_match (htm _),
      transitionStatus_notFound_of_no_match (htm _)⟩

/-- Witness for C2: a store with an ARCHIVED note with id 1 owned by user
10 — trash succeeds from ARCHIVED, archive and restore report NotFound. -/
theorem transitions_cas_witness :
    archiveNote [⟨1, 10, "t", "c", .ARCHIVED, 0⟩] 10 1 5 = .error .NotFound ∧
    trashNote [⟨1, 10, "t", "c", .ARCHIVED, 0⟩] 10 1 5 =
      .ok [⟨1, 10, "t", "c", .TRASH, 5⟩] ∧
    restoreNote [⟨1, 10, "t", "c", .ARCHIVED, 0⟩] 10 1 5 = .error .NotFound := by
  have h := (transitions_cas [⟨1, 10, "t", "c", .ARCHIVED, 0⟩] 10 1 5 (by decide)).1
    ⟨1, 10, "t", "c", .ARCHIVED, 0⟩ (by decide) rfl rfl
  refine ⟨?_, ?_, ?_⟩
  · rw [h.1]; decide
  · rw [h.2.2.1]; decide
  · rw [h.2.2.2]; decide

/-- The fields of a note that PUT /api/notes/:id never writes: id, owner
and status.  Used to state the update frame property. -/
def noteSig (m : Note) : Nat × Nat × Status := (m.id, m.userId, m.status)

/-- C3.  The non-emptiness-after-trimming invariant at the failing input:
create rejects a whitespace-only title, but update on an owned note checks
only that the fields are truthy, so the whitespace-only title `" "` passes
validation and is stored trimmed to the empty string, breaking the
invariant the create path enforces. -/
theorem update_stores_trim_empty_title :
    createNote [] 10 " " "x" 1 0 = .error .InvalidInput ∧
    updateNote [⟨1, 10, "Hi", "there", .ACTIVE, 0⟩] 10 1 " " "x" 5 =
      .ok (⟨1, 10, "", "x", .ACTIVE, 5⟩, [⟨1, 10, "", "x", .ACTIVE, 5⟩]) := by
  decide

/-- C4.  Frame property of update: whenever PUT /api/notes/:id succeeds
(in the current handler or the legacy one), the id, owner and status of
every stored note are unchanged, and the returned note is the previously
stored owned note with only its title, content and update timestamp
replaced. -/
theorem update_frame (db : DB) (uid i : Nat) (title content : String) (now : Nat)
    (n' : Note) (db' : DB) :
    (updateNote db uid i title content now = .ok (n', db') →
      db'.map noteSig = db.map noteSig ∧
      ∃ n0, findOwned db uid i = some n0 ∧
        n' = { n0 with title := trimS title, content := trimS content, updatedAt := now }) ∧
    (updateNoteLegacy db uid i title content now = .ok (n', db') →
      db'.map noteSig = db.map noteSig ∧
      ∃ n0, findOwned db uid i = some n0 ∧
        n' = { n0 with title := title, content := content, updatedAt := now }) := by
  constructor
  · intro h
    rw [updateNote] at h
    by_cases hv : title = "" || content = ""
    · simp [hv] at h
    · rw [if_neg (by simpa using hv)] at h
      cases hfind : findOwned db uid i with
      | none => rw [hfind] at h; cases h
      | some n0 =>
        rw [hfind] at h
        simp only [Except.ok.injEq, Prod.mk.injEq] at h
        refine ⟨?_, n0, rfl, h.1.symm⟩
        rw [← h.2, List.map_map]
        apply List.map_congr_left
        intro m hm
        by_cases hmi : m.id = i <;> simp [noteSig, hmi]
  · intro h
    rw [updateNoteLegacy] at h
    cases hfind : findOwned db uid i with
    | none => rw [hfind] at h; cases h
    | some n0 =>
      rw [hfind] at h
      simp only [Except.ok.injEq, Prod.mk.injEq] at h
      refine ⟨?_, n0, rfl, h.1.symm⟩
      rw [← h.2, List.map_map]
      apply List.map_congr_left
      intro m hm
      by_cases hmi : m.id = i <;> simp [noteSig, hmi]

/-- Witness for C4: updating an ARCHIVED owned note replaces title and
content but keeps id, owner and ARCHIVED status. -/
theorem update_frame_witness :
    ([(⟨1, 10, "New", "Body", .ARCHIVED, 5⟩ : Note)].map noteSig =
      [(⟨1, 10, "Hi", "there", .ARCHIVED, 0⟩ : Note)].map noteSig ∧
     ∃ n0, findOwned [⟨1, 10, "Hi", "there", .ARCHIVED, 0⟩] 10 1 = some n0 ∧
       (⟨1, 10, "New", "Body", .ARCHIVED, 5⟩ : Note) =
         { n0 with title := trimS "New", content := trimS "Body", updatedAt := 5 }) :=
  (update_frame [⟨1, 10, "Hi", "there", .ARCHIVED, 0⟩] 10 1 "New" "Body" 5
    ⟨1, 10, "New", "Body", .ARCHIVED, 5⟩ [⟨1, 10, "New", "Body", .ARCHIVED, 5⟩]).1
    (by decide)

/-- C5.  Login non-enumeration: a login attempt that fails because no user
has the submitted email and one that fails because the bcrypt comparison
rejects the password produce the very same observable response — 401 with
the one generic message. -/
theorem login_non_enumeration
    (compare1 compare2 : String → String → Bool) (udb1 udb2 : UserDB)
    (email1 password1 email2 password2 : String) (u : User)
    (h1e : email1 ≠ "") (h1p : password1 ≠ "")
    (h2e : email2 ≠ "") (h2p : password2 ≠ "")
    (hnone : findUserByEmail udb1 (lowerS email1) = none)
    (hsome : findUserByEmail udb2 (lowerS email2) = some u)
    (hbad : compare2 password2 u.password = false) :
    login compare1 udb1 email1 password1 = login compare2 udb2 email2 password2 ∧
    login compare1 udb1 email1 password1 = .failure 401 "Invalid email or password" := by
  have h1 : login compare1 udb1 email1 password1 = .failure 401 "Invalid email or password" := by
    simp [login, h1e, h1p, hnone]
  have h2 : login compare2 udb2 email2 password2 = .failure 401 "Invalid email or password" := by
    simp [login, h2e, h2p, hsome, hbad]
  exact ⟨h1.trans h2.symm, h1⟩

/-- Witness for C5: unknown email against an empty user table versus a
wrong password for a stored user — identical responses. -/
theorem login_non_enumeration_witness :
    login (fun p h => p == h) [] "a@b.c" "secret1" =
      login (fun p h => p == h) [⟨1, "N", "a@b.c", "hashed"⟩] "A@B.C" "wrong" ∧
    login (fun p h => p == h) [] "a@b.c" "secret1" =
      .failure 401 "Invalid email or password" :=
  login_non_enumeration (fun p h => p == h) (fun p h => p == h) []
    [⟨1, "N", "a@b.c", "hashed"⟩] "a@b.c" "secret1" "A@B.C" "wrong"
    ⟨1, "N", "a@b.c", "hashed"⟩ (by decide) (by decide) (by decide) (by decide)
    (by decide) (by decide) (by decide)

theorem mem_insertDesc {m n : Note} {l : List Note} :
    m ∈ insertDesc n l ↔ m = n ∨ m ∈ l := by
  induction l with
  | nil => simp [insertDesc]
  | cons a t ih =>
    by_cases h : a.updatedAt ≤ n.updatedAt
    · simp [insertDesc, h]
    · simp [insertDesc, h, ih]
      tauto

theorem pairwise_insertDesc {n : Note} {l : List Note}
    (h : l.Pairwise fun a b => b.updatedAt ≤ a.updatedAt) :
    (insertDesc n l).Pairwise fun a b => b.updatedAt ≤ a.updatedAt := by
  induction l with
  | nil => simp [insertDesc]
  | cons a t ih =>
    rcases List.pairwise_cons.mp h with ⟨ha, ht⟩
    by_cases hc : a.updatedAt ≤ n.updatedAt
    · rw [insertDesc, if_pos hc]
      refine List.pairwise_cons.mpr ⟨?_, h⟩
      intro b hb
      rcases List.mem_cons.mp hb with rfl | hbt
      · exact hc
      · exact le_trans (ha b hbt) hc
    · rw [insertDesc, if_neg hc]
      refine List.pairwise_cons.mpr ⟨?_, ih ht⟩
      intro b hb
      rcases mem_insertDesc.mp hb with rfl | hbt
      · exact le_of_not_le hc
      · exact ha b hbt

theorem pairwise_sortByUpdatedDesc (l : List Note) :
    (sortByUpdatedDesc l).Pairwise fun a b => b.updatedAt ≤ a.updatedAt := by
  induction l with
  | nil => simp [sortByUpdatedDesc]
  | cons a t ih => exact pairwise_insertDesc ih

theorem mem_sortByUpdatedDesc {m : Note} {l : List Note} :
    m ∈ sortByUpdatedDesc l ↔ m ∈ l := by
  induction l with
  | nil => simp [sortByUpdatedDesc]
  | cons a t ih => simp [sortByUpdatedDesc, mem_insertDesc, ih]

end Noty

namespace Noty

/-- C6 counterexample: with one matching active note, page 0 is not
treated as page 1 — the handler computes the negative offset -20, the
store rejects it and the request fails, while page 1 returns the note. -/
theorem list_page_zero_counterexample :
    listActiveNotes [⟨1, 10, "t", "c", .ACTIVE, 0⟩] 10 0 20 none = .error .Internal ∧
    listActiveNotes [⟨1, 10, "t", "c", .ACTIVE, 0⟩] 10 1 20 none =
      .ok ([⟨1, 10, "t", "c", .ACTIVE, 0⟩], 1) ∧
    listActiveNotes [⟨1, 10, "t", "c", .ACTIVE, 0⟩] 10 0 20 none ≠
      listActiveNotes [⟨1, 10, "t", "c", .ACTIVE, 0⟩] 10 1 20 none := by
  decide

/-- C6 (amended).  For page ≥ 1 and pageSize ≥ 0, list returns the owner's
ACTIVE notes matching the optional case-insensitive search, newest-updated
first, sliced to [(page-1)*pageSize, page*pageSize), with total the count
of all matching notes ignoring pagination; a page < 1 yields a negative
offset that the store rejects (an Internal failure) instead of being
treated as page 1. -/
theorem list_pagination (db : DB) (uid : Nat) (page limit : Int) (search : Option String)
    (hp : 1 ≤ page) (hl : 0 ≤ limit) :
    ∃ notes : List Note,
      listActiveNotes db uid page limit search =
        .ok (notes, (db.filter (activeWhere uid search)).length) ∧
      notes = ((sortByUpdatedDesc (db.filter (activeWhere uid search))).drop
        ((page - 1) * limit).toNat).take limit.toNat ∧
      notes.Pairwise (fun a b => b.updatedAt ≤ a.updatedAt) ∧
      ∀ m ∈ notes, m ∈ db ∧ activeWhere uid search m := by
  have hskip : ¬ ((page - 1) * limit < 0) := by
    have : (0 : Int) ≤ (page - 1) * limit := mul_nonneg (by omega) hl
    omega
  have htk : ¬ (limit < (0 : Int)) := by omega
  refine ⟨_, ?_, rfl, ?_, ?_⟩
  · simp only [listActiveNotes, prismaSlice]
    rw [if_neg hskip, if_neg htk]
  · exact List.Pairwise.sublist ((List.take_sublist _ _).trans (List.drop_sublist _ _))
      (pairwise_sortByUpdatedDesc _)
  · intro m hm
    have hm' : m ∈ sortByUpdatedDesc (db.filter (activeWhere uid search)) :=
      List.mem_of_mem_drop (List.mem_of_mem_take hm)
    have hmem := mem_sortByUpdatedDesc.mp hm'
    exact ⟨(List.mem_filter.mp hmem).1, (List.mem_filter.mp hmem).2⟩

/-- Witness for C6, the spec scenario: three active notes, page 2 with
page size 1 returns the second-newest-updated note and total 3. -/
theorem list_pagination_witness :
    listActiveNotes
      [⟨1, 10, "a", "x", .ACTIVE, 1⟩, ⟨2, 10, "b", "y", .ACTIVE, 2⟩,
       ⟨3, 10, "c", "z", .ACTIVE, 3⟩] 10 2 1 none =
      .ok ([⟨2, 10, "b", "y", .ACTIVE, 2⟩], 3) := by
  obtain ⟨notes, h1, h2, _, _⟩ := list_pagination
    [⟨1, 10, "a", "x", .ACTIVE, 1⟩, ⟨2, 10, "b", "y", .ACTIVE, 2⟩,
     ⟨3, 10, "c", "z", .ACTIVE, 3⟩] 10 2 1 none (by decide) (by decide)
  rw [h1]
  have hnotes : notes = [⟨2, 10, "b", "y", .ACTIVE, 2⟩] := by rw [h2]; decide
  rw [hnotes]
  decide

theorem uniqueIds_map_of_id_preserved {db : DB} {f : Note → Note}
    (hf : ∀ m, (f m).id = m.id) (hu : uniqueIds db = true) :
    uniqueIds (db.map f) = true := by
  induction db with
  | nil => rfl
  | cons a t ih =>
    have hu' : (t.all fun x => x.id != a.id) = true ∧ uniqueIds t = true := by
      simpa [uniqueIds, Bool.and_eq_true] using hu
    simp only [List.map_cons, uniqueIds, Bool.and_eq_true]
    refine ⟨?_, ih hu'.2⟩
    rw [List.all_eq_true]
    intro x hx
    rcases List.mem_map.mp hx with ⟨y, hy, rfl⟩
    have := List.all_eq_true.mp hu'.1 y hy
    simpa [hf] using this

theorem findOwned_eq_some_of_unique {db : DB} {uid i : Nat} {n : Note}
    (hu : uniqueIds db = true) (hn : n ∈ db) (hid : n.id = i) (hown : n.userId = uid) :
    findOwned db uid i = some n := by
  induction db with
  | nil => cases hn
  | cons a t ih =>
    have hu' : (t.all fun x => x.id != a.id) = true ∧ uniqueIds t = true := by
      simpa [uniqueIds, Bool.and_eq_true] using hu
    rcases List.mem_cons.mp hn with rfl | hnt
    · show List.find? _ (n :: t) = some n
      rw [List.find?_cons_of_pos _ (by simp [hid, hown])]
    · by_cases hpa : (a.id == i && a.userId == uid) = true
      · have hai : a.id = i := by
          have := (Bool.and_eq_true _ _).mp hpa
          simpa using this.1
        have hne := List.all_eq_true.mp hu'.1 n hnt
        simp only [bne_iff_ne, ne_eq] at hne
        exact absurd (hid.trans hai.symm) hne
      · show List.find? _ (a :: t) = some n
        rw [List.find?_cons_of_neg _ (by simpa using hpa)]
        exact ih hu'.2 hnt

end Noty

namespace Noty

/-- C7.  Registering the same email twice, in any letter case, yields
exactly one success and one Conflict: with valid inputs and no user yet
stored under the lower-cased email, the first registration succeeds and
stores the lower-cased email, and a second registration whose email
lower-cases to the same string fails with 409 and leaves the user table
exactly as the first registration left it. -/
theorem register_twice (hash1 hash2 : String → String) (udb : UserDB) (id1 id2 : Nat)
    (name1 name2 email1 email2 password1 password2 : String)
    (hn1 : name1 ≠ "") (he1 : validEmail email1 = true) (hp1 : ¬ password1.length < 6)
    (hn2 : name2 ≠ "") (he2 : validEmail email2 = true) (hp2 : ¬ password2.length < 6)
    (hsame : lowerS email2 = lowerS email1)
    (hfresh : findUserByEmail udb (lowerS email1) = none) :
    register hash1 udb id1 name1 email1 password1 =
      (.success id1 name1 (lowerS email1),
       udb ++ [⟨id1, name1, lowerS email1, hash1 password1⟩]) ∧
    register hash2 (udb ++ [⟨id1, name1, lowerS email1, hash1 password1⟩]) id2
        name2 email2 password2 =
      (.failure 409 "User already exists with this email",
       udb ++ [⟨id1, name1, lowerS email1, hash1 password1⟩]) := by
  have he1' : email1 ≠ "" := by
    intro h; rw [h] at he1; exact absurd he1 (by decide)
  have he2' : email2 ≠ "" := by
    intro h; rw [h] at he2; exact absurd he2 (by decide)
  have hp1' : password1 ≠ "" := by
    intro h; rw [h] at hp1; exact hp1 (by decide)
  have hp2' : password2 ≠ "" := by
    intro h; rw [h] at hp2; exact hp2 (by decide)
  have hfind2 : findUserByEmail (udb ++ [⟨id1, name1, lowerS email1, hash1 password1⟩])
      (lowerS email2) = some ⟨id1, name1, lowerS email1, hash1 password1⟩ := by
    rw [hsame]
    unfold findUserByEmail at hfresh ⊢
    rw [List.find?_append, hfresh]
    simp
  constructor
  · simp [register, hn1, he1', hp1', he1, hp1, hfresh]
  · simp [register, hn2, he2', hp2', he2, hp2, hfind2]

/-- Witness for C7: registering `A@B.c` into an empty table succeeds and
stores `a@b.c`; registering `a@b.C` afterwards yields the Conflict. -/
theorem register_twice_witness :
    register (fun s => s ++ "!") [] 1 "N" "A@B.c" "secret" =
      (.success 1 "N" "a@b.c", [⟨1, "N", "a@b.c", "secret!"⟩]) ∧
    register (fun s => s ++ "!") [⟨1, "N", "a@b.c", "secret!"⟩] 2 "M" "a@b.C" "longpw" =
      (.failure 409 "User already exists with this email",
       [⟨1, "N", "a@b.c", "secret!"⟩]) := by
  obtain ⟨h1, h2⟩ := register_twice (fun s => s ++ "!") (fun s => s ++ "!") [] 1 2
    "N" "M" "A@B.c" "a@b.C" "secret" "longpw" (by decide) (by decide) (by decide)
    (by decide) (by decide) (by decide) (by decide) (by decide)
  exact ⟨h1.trans (by decide), h2.trans (by decide)⟩

/-- C8.  Token round trip: a token issued for a user verifies, under the
same secret, to a payload carrying exactly that user's id and email at
every time before the 7-day lifetime has elapsed, and fails with Expired
at every time from the moment the lifetime has elapsed on. -/
theorem token_round_trip (secret : String) (u : User) (now now2 : Nat) :
    (now2 < now + sevenDays →
      verifyToken secret (generateToken secret u now) now2 = .ok ⟨u.id, u.email⟩) ∧
    (now + sevenDays ≤ now2 →
      verifyToken secret (generateToken secret u now) now2 = .error .Expired) := by
  constructor
  · intro h
    simp [verifyToken, generateToken, Nat.not_le.mpr h]
  · intro h
    simp [verifyToken, generateToken, h]

/-- Witness for C8: a token issued at time 0 verifies one second before
the 604800-second lifetime ends and is Expired exactly at its end. -/
theorem token_round_trip_witness :
    verifyToken "s" (generateToken "s" ⟨1, "N", "a@b.c", "h"⟩ 0) 604799 =
      .ok ⟨1, "a@b.c"⟩ ∧
    verifyToken "s" (generateToken "s" ⟨1, "N", "a@b.c", "h"⟩ 0) 604800 =
      .error .Expired :=
  ⟨(token_round_trip "s" ⟨1, "N", "a@b.c", "h"⟩ 0 604799).1 (by decide),
   (token_round_trip "s" ⟨1, "N", "a@b.c", "h"⟩ 0 604800).2 (by decide)⟩

/-- C9.  Race idempotence of archive: the storage layer serialises the two
conditional updates of two concurrent archive requests, and the two
serialisation orders coincide, so the race reduces to running the
conditional update twice — the first request flips the unique owned ACTIVE
note to ARCHIVED, the second matches zero rows and reports NotFound, and
the note ends ARCHIVED. -/
theorem archive_race (db : DB) (uid i now now2 : Nat) (n : Note)
    (hu : uniqueIds db = true) (hn : n ∈ db) (hid : n.id = i)
    (hown : n.userId = uid) (hact : n.status = .ACTIVE) :
    archiveNote db uid i now = .ok (setStatus db i .ARCHIVED now) ∧
    archiveNote (setStatus db i .ARCHIVED now) uid i now2 = .error .NotFound ∧
    findOwned (setStatus db i .ARCHIVED now) uid i =
      some { n with status := .ARCHIVED, updatedAt := now } := by
  have h1 : archiveNote db uid i now = .ok (setStatus db i .ARCHIVED now) := by
    rw [archiveNote, transitionStatus_owned hu hn hid hown]
    simp [hact]
  have hu2 : uniqueIds (setStatus db i .ARCHIVED now) = true := by
    apply uniqueIds_map_of_id_preserved _ hu
    intro m
    by_cases h : m.id = i <;> simp [h]
  have hn2 : ({ n with status := Status.ARCHIVED, updatedAt := now } : Note) ∈
      setStatus db i .ARCHIVED now := by
    rw [setStatus]
    exact List.mem_map.mpr ⟨n, hn, by simp [hid]⟩
  have h2 : archiveNote (setStatus db i .ARCHIVED now) uid i now2 = .error .NotFound := by
    rw [archiveNote, transitionStatus_owned hu2 hn2 hid hown]
    simp
  exact ⟨h1, h2, findOwned_eq_some_of_unique hu2 hn2 hid hown⟩

/-- Witness for C9: one ACTIVE note, two archive requests in sequence. -/
theorem archive_race_witness :
    archiveNote [⟨1, 10, "t", "c", .ACTIVE, 0⟩] 10 1 5 =
      .ok (setStatus [⟨1, 10, "t", "c", .ACTIVE, 0⟩] 1 .ARCHIVED 5) ∧
    archiveNote (setStatus [⟨1, 10, "t", "c", .ACTIVE, 0⟩] 1 .ARCHIVED 5) 10 1 7 =
      .error .NotFound ∧
    findOwned (setStatus [⟨1, 10, "t", "c", .ACTIVE, 0⟩] 1 .ARCHIVED 5) 10 1 =
      some ⟨1, 10, "t", "c", .ARCHIVED, 5⟩ :=
  archive_race [⟨1, 10, "t", "c", .ACTIVE, 0⟩] 10 1 5 7 ⟨1, 10, "t", "c", .ACTIVE, 0⟩
    (by decide) (by decide) rfl rfl rfl

end Noty

namespace Noty

/-- The fields of a note that a status transition never writes: id, owner,
title and content.  Used to state the transition frame property. -/
def noteKey (m : Note) : Nat × Nat × String × String := (m.id, m.userId, m.title, m.content)

/-- C10.  Frame property of transitions: whenever a conditional status
update succeeds, the id, owner, title and content of every stored note are
exactly as before (only status and the update timestamp may change), the
table keeps its length, and every row the update did not match is stored
unchanged. -/
theorem transition_frame (db : DB) (uid i : Nat) (fs : List Status) (ts : Status)
    (now : Nat) (db' : DB)
    (h : transitionStatus db uid i fs ts now = .ok db') :
    db'.map noteKey = db.map noteKey ∧
    db'.length = db.length ∧
    ∀ m ∈ db, transMatch uid i fs m = false → m ∈ db' := by
  have hdb' : db' = db.map fun n =>
      if transMatch uid i fs n then { n with status := ts, updatedAt := now } else n := by
    by_cases hc : (db.filter (transMatch uid i fs)).length = 0
    · simp only [transitionStatus] at h
      rw [if_pos hc] at h
      cases h
    · simp only [transitionStatus] at h
      rw [if_neg hc] at h
      simpa using h.symm
  refine ⟨?_, ?_, ?_⟩
  · rw [hdb', List.map_map]
    apply List.map_congr_left
    intro m hm
    by_cases hmc : transMatch uid i fs m = true <;> simp [noteKey, hmc]
  · rw [hdb', List.length_map]
  · intro m hm hmc
    rw [hdb']
    exact List.mem_map.mpr ⟨m, hm, by simp [hmc]⟩

/-- Witness for C10: archiving an ACTIVE note keeps id, owner, title and
content. -/
theorem transition_frame_witness :
    ([(⟨1, 10, "t", "c", .ARCHIVED, 5⟩ : Note)].map noteKey =
      [(⟨1, 10, "t", "c", .ACTIVE, 0⟩ : Note)].map noteKey ∧
     ([(⟨1, 10, "t", "c", .ARCHIVED, 5⟩ : Note)]).length =
      ([(⟨1, 10, "t", "c", .ACTIVE, 0⟩ : Note)]).length ∧
     ∀ m ∈ [(⟨1, 10, "t", "c", .ACTIVE, 0⟩ : Note)], transMatch 10 1 [.ACTIVE] m = false →
       m ∈ [(⟨1, 10, "t", "c", .ARCHIVED, 5⟩ : Note)]) :=
  transition_frame [⟨1, 10, "t", "c", .ACTIVE, 0⟩] 10 1 [.ACTIVE] .ARCHIVED 5
    [⟨1, 10, "t", "c", .ARCHIVED, 5⟩] (by decide)

end Noty
